import Mathlib

/-!
Shallow embedding of `src/main.rs` of GtkUI/language-server: a tower-lsp
backend that keeps a Text Store (`document_map : DashMap<String, Rope>`) and a
Token Cache (`token_map : DashMap<String, Vec<Token>>`), re-tokenizes on
open/change, and serves semantic tokens (full and range) as LSP delta-encoded
streams.

Modelling conventions:
- A `Rope` is modelled as `List Char`; byte positions use UTF-8 widths
  (`Char.utf8Size`), mirroring ropey's byte/char/line indexing.
- The two `DashMap`s are modelled as association lists with whole-value
  replacement on insert; a single-threaded step model (each handler is one
  atomic state transition), which matches the per-key serialization described
  for the maps.
- `u32` quantities are modelled as `Nat`.  The delta subtractions in the
  encoders are kept as `Nat` subtraction; the no-underflow theorem for the
  full encoder (claim C6) shows the operands are ordered there, where `u32`
  and `Nat` subtraction agree.
- The lexer lives in the external `gtk_ui` crate (out of scope per the spec);
  handlers take its outcome as parameters: `lexOk` is whether
  `lexer.lex(true)` returned `Ok`, and `lexTokens` is the `lexer.tokens`
  buffer, which exists (possibly partially filled) even when lexing fails.
- Fallible code returns `Option`: `none` models a panic (C9) or an absent
  JSON result (`Ok(None)`); the handlers never return protocol errors.
-/

namespace GtkLS

/-- Byte range `[start, stop)` of a token (`Token.range` with fields
`start`/`end` in the source; `end` is a Lean keyword, hence `stop`). -/
structure Span where
  start : Nat
  stop : Nat
deriving DecidableEq

/-- The token kinds `main.rs` distinguishes in `TokenExt::to_legend_type`
(`TokenValue::Bool/Number/Setter/String/Directive/Definition/Inherits`);
`other` stands for every variant caught by the `_ => None` arm.  Payloads are
omitted: `main.rs` never inspects them. -/
inductive TokenValue where
  | bool
  | number
  | setter
  | string
  | directive
  | definition
  | inherits
  | other
deriving DecidableEq

/-- `gtk_ui::lexer::Token` as used by `main.rs`: a byte range and a value. -/
structure Token where
  range : Span
  value : TokenValue
deriving DecidableEq

/-- `LEGEND_TYPE : &[SemanticTokenType]` (src/main.rs:8-18), by wire name:
COMMENT, NUMBER, STRING, MACRO, METHOD, KEYWORD, TYPE, CLASS, OPERATOR. -/
def LEGEND_TYPE : List String :=
  ["comment", "number", "string", "macro", "method", "keyword", "type", "class", "operator"]

/-- `TokenExt::to_legend_type` (src/main.rs:24-59): each classified variant is
mapped to the position of its legend entry in `LEGEND_TYPE`; unmatched
variants yield `None`. -/
def Token.to_legend_type (t : Token) : Option Nat :=
  match t.value with
  | .bool => LEGEND_TYPE.indexOf? ("keyword")
  | .number => LEGEND_TYPE.indexOf? ("number")
  | .setter => LEGEND_TYPE.indexOf? ("method")
  | .string => LEGEND_TYPE.indexOf? ("string")
  | .directive => LEGEND_TYPE.indexOf? ("macro")
  | .definition => LEGEND_TYPE.indexOf? ("class")
  | .inherits => LEGEND_TYPE.indexOf? ("operator")
  | .other => none

/-- `lsp_types::SemanticToken` as built in the two encoders. -/
structure SemanticToken where
  delta_line : Nat
  delta_start : Nat
  length : Nat
  token_modifiers_bitset : Nat
  token_type : Nat
deriving DecidableEq

/-- Total UTF-8 byte length of a text (ropey `len_bytes`). -/
def byteLen (s : List Char) : Nat := (s.map Char.utf8Size).sum

/-- Number of newline characters in a text; ropey's `len_lines` is this + 1. -/
def newlineCount (s : List Char) : Nat := s.count '\n'

/-- Index of the char containing byte `b` (ropey `byte_to_char`, clamped). -/
def byteToChar : List Char → Nat → Nat
  | [], _ => 0
  | c :: rest, b => if b < c.utf8Size then 0 else 1 + byteToChar rest (b - c.utf8Size)

/-- Index of the line containing byte `b` (ropey `byte_to_line`): the number
of newline chars wholly contained in the first `b` bytes. -/
def byteToLine : List Char → Nat → Nat
  | [], _ => 0
  | c :: rest, b =>
    if b < c.utf8Size then 0
    else (if c = '\n' then 1 else 0) + byteToLine rest (b - c.utf8Size)

/-- Char index of the first char of line `l` (ropey `line_to_char`, clamped
at the end of the text for the one-past-the-end line). -/
def lineToChar : List Char → Nat → Nat
  | [], _ => 0
  | _ :: _, 0 => 0
  | c :: rest, l + 1 =>
    if c = '\n' then 1 + lineToChar rest l else 1 + lineToChar rest (l + 1)

/-- ropey `Rope::try_byte_to_char`: errors iff the byte index exceeds
`len_bytes`. -/
def tryByteToChar (s : List Char) (b : Nat) : Option Nat :=
  if b ≤ byteLen s then some (byteToChar s b) else none

/-- ropey `Rope::try_byte_to_line`: errors iff the byte index exceeds
`len_bytes`. -/
def tryByteToLine (s : List Char) (b : Nat) : Option Nat :=
  if b ≤ byteLen s then some (byteToLine s b) else none

/-- ropey `Rope::try_line_to_char`: errors iff the line index exceeds
`len_lines = newlineCount + 1`. -/
def tryLineToChar (s : List Char) (l : Nat) : Option Nat :=
  if l ≤ newlineCount s + 1 then some (lineToChar s l) else none

/-- The position-resolution prefix shared by both encoder closures
(src/main.rs:169-171 and 215-217):
`line = rope.try_byte_to_line(token.range.start)?`,
`first = rope.try_line_to_char(line)?`,
`start = rope.try_byte_to_char(token.range.start)? - first`.
Returns `(line, start)`; `none` models the `.ok()?` early exit that drops
just this token from the `filter_map`. -/
def resolveToken (rope : List Char) (t : Token) : Option (Nat × Nat) :=
  match tryByteToLine rope t.range.start with
  | none => none
  | some line =>
    match tryLineToChar rope line with
    | none => none
    | some first =>
      match tryByteToChar rope t.range.start with
      | none => none
      | some ch => some (line, ch - first)

/-- The `filter_map` body of `semantic_tokens_full` (src/main.rs:166-194),
with the running cursor `(pre_line, pre_start)` as explicit arguments:
`delta_line = line - pre_line`;
`delta_start = if delta_line == 0 { start - pre_start } else { start }`;
the cursor advances only for emitted tokens. -/
def encodeFullTokens (rope : List Char) : Nat → Nat → List Token → List SemanticToken
  | _, _, [] => []
  | pre_line, pre_start, t :: ts =>
    match resolveToken rope t with
    | none => encodeFullTokens rope pre_line pre_start ts
    | some (line, start) =>
      match t.to_legend_type with
      | none => encodeFullTokens rope pre_line pre_start ts
      | some token_type =>
        { delta_line := line - pre_line,
          delta_start := if line - pre_line == 0 then start - pre_start else start,
          length := t.range.stop - t.range.start,
          token_modifiers_bitset := 0,
          token_type := token_type } :: encodeFullTokens rope line start ts

/-- The `filter_map` body of `semantic_tokens_range` (src/main.rs:213-241):
identical to the full variant except for the `delta_start` branch, which
tests `start >= pre_start` instead of `delta_line == 0`. -/
def encodeRangeTokens (rope : List Char) : Nat → Nat → List Token → List SemanticToken
  | _, _, [] => []
  | pre_line, pre_start, t :: ts =>
    match resolveToken rope t with
    | none => encodeRangeTokens rope pre_line pre_start ts
    | some (line, start) =>
      match t.to_legend_type with
      | none => encodeRangeTokens rope pre_line pre_start ts
      | some token_type =>
        { delta_line := line - pre_line,
          delta_start := if pre_start ≤ start then start - pre_start else start,
          length := t.range.stop - t.range.start,
          token_modifiers_bitset := 0,
          token_type := token_type } :: encodeRangeTokens rope line start ts

/-- Association-list lookup, modelling `DashMap::get` / `get_mut`. -/
def mapGet {α : Type} (m : List (String × α)) (k : String) : Option α :=
  match m.find? (fun p => p.1 == k) with
  | some p => some p.2
  | none => none

/-- Association-list insert with whole-value replacement, modelling
`DashMap::insert`. -/
def mapInsert {α : Type} (m : List (String × α)) (k : String) (v : α) : List (String × α) :=
  (k, v) :: m.filter (fun p => p.1 != k)

/-- The `Backend` state: `document_map` (Text Store) and `token_map`
(Token Cache) (src/main.rs:61-66).  The `client` handle carries only
logging and is not modelled. -/
structure Backend where
  document_map : List (String × List Char)
  token_map : List (String × List Token)
deriving DecidableEq

/-- `Backend::on_change` (src/main.rs:259-279): build a rope from the full
text and insert it into `document_map`; run the external lexer; then insert
`lexer.tokens` into `token_map` UNCONDITIONALLY — the `if let Ok(_) =
lexer.lex(true)` branch only chooses which message to log, so `lexOk` has no
effect on the state. -/
def on_change (b : Backend) (uri : String) (text : List Char) (version : Int)
    (lexOk : Bool) (lexTokens : List Token) : Backend :=
  { document_map := mapInsert b.document_map uri text,
    token_map := mapInsert b.token_map uri lexTokens }

/-- `did_open` (src/main.rs:117-127): forwards the full text to `on_change`. -/
def did_open (b : Backend) (uri : String) (text : List Char) (version : Int)
    (lexOk : Bool) (lexTokens : List Token) : Backend :=
  on_change b uri text version lexOk lexTokens

/-- `did_change` (src/main.rs:129-136): reads `params.content_changes[0]` by
direct indexing.  `none` models the index-out-of-bounds panic when the
content-changes list is empty; otherwise the first change's text is forwarded
to `on_change` as the new full text. -/
def did_change (b : Backend) (uri : String) (content_changes : List (List Char)) (version : Int)
    (lexOk : Bool) (lexTokens : List Token) : Option Backend :=
  match content_changes with
  | [] => none
  | c :: _ => some (on_change b uri c version lexOk lexTokens)

/-- `main.rs` does not override `did_close`; the framework's default handler
ignores the notification, so a close event leaves the `Backend` state
unchanged. -/
def did_close (b : Backend) (uri : String) : Backend := b

/-- The comparator of `sort_by(|a, b| a.range.start.cmp(&b.range.start))`
(src/main.rs:164) as a boolean `le` relation; Rust's `sort_by` and
`List.mergeSort` are both stable. -/
def tokenLE (a b : Token) : Bool := a.range.start ≤ b.range.start

/-- `semantic_tokens_full` (src/main.rs:150-204).  Returns the new `Backend`
state and the JSON result (`none` models `Ok(None)`).  The closure exits with
`None` if either map lacks the key (the two `?`s); otherwise it sorts the
cached token vector IN PLACE through the `get_mut` guard (so the cache ends
up holding the sorted vector) and delta-encodes it. -/
def semantic_tokens_full (b : Backend) (uri : String) :
    Backend × Option (List SemanticToken) :=
  match mapGet b.token_map uri with
  | none => (b, none)
  | some toks =>
    match mapGet b.document_map uri with
    | none => (b, none)
    | some rope =>
      let sorted := toks.mergeSort tokenLE
      ({ b with token_map := mapInsert b.token_map uri sorted },
        some (encodeFullTokens rope 0 0 sorted))

/-- `semantic_tokens_range` (src/main.rs:205-250).  `params.range` is bound
as `sp` but never read by the handler body; the cached token vector is read
with plain `get` (no mutation) and encoded whole, in cache order, with no
sorting step. -/
def semantic_tokens_range (b : Backend) (uri : String) (sp : Span) :
    Option (List SemanticToken) :=
  match mapGet b.token_map uri with
  | none => none
  | some toks =>
    match mapGet b.document_map uri with
    | none => none
    | some rope => some (encodeRangeTokens rope 0 0 toks)

/-- Modelled from the spec: §4.5 claims the range handler runs the "same
algorithm as §4.4", whose first step sorts the cached TokenSet ascending by
start offset (stable).  This definition follows those words (sort, then the
range encoder's per-token step) and exists only to be compared with
`semantic_tokens_range`, which does not sort. -/
def semantic_tokens_range_spec (b : Backend) (uri : String) (sp : Span) :
    Option (List SemanticToken) :=
  match mapGet b.token_map uri with
  | none => none
  | some toks =>
    match mapGet b.document_map uri with
    | none => none
    | some rope => some (encodeRangeTokens rope 0 0 (toks.mergeSort tokenLE))

/-- The `(line, col)` pairs of exactly the tokens the encoders emit (position
resolution succeeds and the kind has a legend entry), in traversal order. -/
def emittedPositions (rope : List Char) : List Token → List (Nat × Nat)
  | [] => []
  | t :: ts =>
    match resolveToken rope t, t.to_legend_type with
    | some lc, some _ => lc :: emittedPositions rope ts
    | _, _ => emittedPositions rope ts

/-- Modelled from the spec's wording of claim C4: the range variant's
`deltaStart` is `col - prevCol` when `col ≥ prevCol` and the absolute `col`
otherwise, never consulting the line numbers. -/
def rangeDeltaSpec : Nat → List (Nat × Nat) → List Nat
  | _, [] => []
  | prevCol, lc :: rest =>
    (if prevCol ≤ lc.2 then lc.2 - prevCol else lc.2) :: rangeDeltaSpec lc.2 rest

/-- No-underflow predicate for the full encoder's cursor walk (claim C6): at
every emitted token, the previous line is ≤ the token's line, and on an equal
line the previous column is ≤ the token's column — so the `u32` subtractions
`line - pre_line` and `start - pre_start` cannot underflow and the deltas are
the true nonnegative differences.  Skipped tokens leave the cursor in place,
exactly as in `encodeFullTokens`. -/
def deltasSafeFull (rope : List Char) : Nat → Nat → List Token → Bool
  | _, _, [] => true
  | pre_line, pre_start, t :: ts =>
    match resolveToken rope t, t.to_legend_type with
    | some (line, start), some _ =>
      decide (pre_line ≤ line) &&
        (if line = pre_line then decide (pre_start ≤ start) else true) &&
        deltasSafeFull rope line start ts
    | _, _ => deltasSafeFull rope pre_line pre_start ts

/-! ## Concrete states used by counterexamples and witnesses -/

def uriU : String := "u"

/-- C1: a document whose cache holds one boolean token before a failing
change event. -/
def c1Text : List Char := ['t', 'r', 'u', 'e']

def c1Tok : Token := ⟨⟨0, 4⟩, .bool⟩

def c1Backend : Backend := ⟨[(uriU, c1Text)], [(uriU, [c1Tok])]⟩

/-- C2: a document with both entries present when a close event arrives. -/
def c2Rope : List Char := ['4', '2']

def c2Tok : Token := ⟨⟨0, 2⟩, .number⟩

def c2Backend : Backend := ⟨[(uriU, c2Rope)], [(uriU, [c2Tok])]⟩

/-- C3: one cached token at bytes `[0, 2)`; any span past byte 2 excludes it. -/
def c3Backend : Backend := ⟨[(uriU, ['a', 'b'])], [(uriU, [⟨⟨0, 2⟩, .number⟩])]⟩

/-- C4: two tokens on different lines with equal columns: text `"ab\ncd"`,
number tokens at bytes `[1, 2)` (line 0, col 1) and `[4, 5)` (line 1, col 1). -/
def c4Rope : List Char := ['a', 'b', '\n', 'c', 'd']

def c4Toks : List Token := [⟨⟨1, 2⟩, .number⟩, ⟨⟨4, 5⟩, .number⟩]

def c4Backend : Backend := ⟨[(uriU, c4Rope)], [(uriU, c4Toks)]⟩

/-- C6: the spec §8 scenario: text of byte shape `true\n42 "s"` (quote chars
replaced by same-width ASCII), tokens Bool@0-4, Number@5-7, String@8-11. -/
def c6Rope : List Char := ['t', 'r', 'u', 'e', '\n', '4', '2', ' ', 'q', 's', 'q']

def c6Toks : List Token := [⟨⟨0, 4⟩, .bool⟩, ⟨⟨5, 7⟩, .number⟩, ⟨⟨8, 11⟩, .string⟩]

def c6Backend : Backend := ⟨[(uriU, c6Rope)], [(uriU, c6Toks)]⟩

/-- C7: a cache stored out of order: text `"ab"`, number tokens at `[1, 2)`
then `[0, 1)`. -/
def c7Rope : List Char := ['a', 'b']

def c7Toks : List Token := [⟨⟨1, 2⟩, .number⟩, ⟨⟨0, 1⟩, .number⟩]

def c7Backend : Backend := ⟨[(uriU, c7Rope)], [(uriU, c7Toks)]⟩

/-- C7 witness state: the same text with the cache already sorted. -/
def c7SortedToks : List Token := [⟨⟨0, 1⟩, .number⟩, ⟨⟨1, 2⟩, .number⟩]

def c7SortedBackend : Backend := ⟨[(uriU, c7Rope)], [(uriU, c7SortedToks)]⟩

/-- C10: an out-of-order cache whose range-query output changes once a full
query has sorted the cache in place. -/
def c10Rope : List Char := ['a', 'b']

def c10Toks : List Token := [⟨⟨1, 2⟩, .number⟩, ⟨⟨0, 1⟩, .number⟩]

def c10Backend : Backend := ⟨[(uriU, c10Rope)], [(uriU, c10Toks)]⟩

/-! ## Helper lemmas -/

theorem mapGet_insert_self {α : Type} (m : List (String × α)) (k : String) (v : α) :
    mapGet (mapInsert m k v) k = some v := by
  simp [mapGet, mapInsert, List.find?_cons]

theorem byteToChar_zero (s : List Char) : byteToChar s 0 = 0 := by
  cases s with
  | nil => rfl
  | cons c rest => simp [byteToChar, Char.utf8Size_pos]

theorem byteToLine_zero (s : List Char) : byteToLine s 0 = 0 := by
  cases s with
  | nil => rfl
  | cons c rest => simp [byteToLine, Char.utf8Size_pos]

theorem lineToChar_zero (s : List Char) : lineToChar s 0 = 0 := by
  cases s with
  | nil => rfl
  | cons c rest => rfl

theorem byteToChar_mono (s : List Char) :
    ∀ {b1 b2 : Nat}, b1 ≤ b2 → byteToChar s b1 ≤ byteToChar s b2 := by
  induction s with
  | nil => intro b1 b2 h; simp [byteToChar]
  | cons c rest ih =>
    intro b1 b2 h
    by_cases h1 : b1 < c.utf8Size
    · simp only [byteToChar, if_pos h1]
      exact Nat.zero_le _
    · have h2 : ¬ b2 < c.utf8Size := fun hlt => h1 (Nat.lt_of_le_of_lt h hlt)
      simp only [byteToChar, if_neg h1, if_neg h2]
      exact Nat.add_le_add_left (ih (Nat.sub_le_sub_right h _)) 1

theorem byteToLine_mono (s : List Char) :
    ∀ {b1 b2 : Nat}, b1 ≤ b2 → byteToLine s b1 ≤ byteToLine s b2 := by
  induction s with
  | nil => intro b1 b2 h; simp [byteToLine]
  | cons c rest ih =>
    intro b1 b2 h
    by_cases h1 : b1 < c.utf8Size
    · simp only [byteToLine, if_pos h1]
      exact Nat.zero_le _
    · have h2 : ¬ b2 < c.utf8Size := fun hlt => h1 (Nat.lt_of_le_of_lt h hlt)
      simp only [byteToLine, if_neg h1, if_neg h2]
      exact Nat.add_le_add_left (ih (Nat.sub_le_sub_right h _)) _

theorem resolveToken_some {rope : List Char} {t : Token} {line start : Nat}
    (h : resolveToken rope t = some (line, start)) :
    line = byteToLine rope t.range.start ∧
    start = byteToChar rope t.range.start - lineToChar rope line := by
  simp only [resolveToken, tryByteToLine, tryLineToChar, tryByteToChar] at h
  by_cases h1 : t.range.start ≤ byteLen rope
  · simp only [if_pos h1] at h
    by_cases h2 : byteToLine rope t.range.start ≤ newlineCount rope + 1
    · simp only [if_pos h2, Option.some.injEq, Prod.mk.injEq] at h
      obtain ⟨hl, hs⟩ := h
      subst hl
      exact ⟨rfl, hs.symm⟩
    · simp [if_neg h2] at h
  · simp [if_neg h1] at h

theorem tokenLE_trans : ∀ a b c : Token,
    tokenLE a b = true → tokenLE b c = true → tokenLE a c = true := by
  intro a b c hab hbc
  simp only [tokenLE, decide_eq_true_eq] at *
  omega

theorem tokenLE_total : ∀ a b : Token, (tokenLE a b || tokenLE b a) = true := by
  intro a b
  simp [tokenLE, Nat.le_total]

/-- The sorted cache is pairwise-ordered by start offset. -/
theorem mergeSort_pairwise (l : List Token) :
    List.Pairwise (fun a c => a.range.start ≤ c.range.start) (l.mergeSort tokenLE) := by
  have h := List.sorted_mergeSort tokenLE_trans tokenLE_total l
  exact h.imp (fun hab => by simpa [tokenLE] using hab)

/-- Sorting a cache that is already pairwise-ordered by start offset is the
identity (stability of the source's `sort_by`). -/
theorem mergeSort_eq_of_pairwise {l : List Token}
    (h : List.Pairwise (fun a c => a.range.start ≤ c.range.start) l) :
    l.mergeSort tokenLE = l := by
  apply List.mergeSort_of_sorted
  exact h.imp (fun hab => by simpa [tokenLE] using hab)

theorem encodeFullTokens_length_le (rope : List Char) :
    ∀ (ts : List Token) (pl ps : Nat),
      (encodeFullTokens rope pl ps ts).length ≤ ts.length := by
  intro ts
  induction ts with
  | nil => intro pl ps; simp [encodeFullTokens]
  | cons t ts ih =>
    intro pl ps
    simp only [encodeFullTokens]
    rcases resolveToken rope t with _ | ⟨line, start⟩
    · exact Nat.le_succ_of_le (ih pl ps)
    · rcases t.to_legend_type with _ | tt
      · exact Nat.le_succ_of_le (ih pl ps)
      · simpa using Nat.succ_le_succ (ih line start)

/-- Cursor invariant for the full encoder: if every remaining token starts at
or after byte `b0` and the remaining tokens are pairwise ordered by start
offset, then walking them from the resolved position of `b0` never underflows
a delta subtraction. -/
theorem deltasSafeFull_aux (rope : List Char) :
    ∀ (ts : List Token) (b0 : Nat),
      List.Pairwise (fun a c => a.range.start ≤ c.range.start) ts →
      (∀ t ∈ ts, b0 ≤ t.range.start) →
      deltasSafeFull rope (byteToLine rope b0)
        (byteToChar rope b0 - lineToChar rope (byteToLine rope b0)) ts = true := by
  intro ts
  induction ts with
  | nil => intro b0 _ _; rfl
  | cons t ts ih =>
    intro b0 hp hb
    have hb0t : b0 ≤ t.range.start := hb t (List.mem_cons_self t ts)
    have hbrest : ∀ u ∈ ts, b0 ≤ u.range.start := fun u hu => hb u (List.mem_cons_of_mem t hu)
    have hsplit := List.pairwise_cons.mp hp
    rcases hr : resolveToken rope t with _ | ⟨line, start⟩
    · simp only [deltasSafeFull, hr]
      exact ih b0 hsplit.2 hbrest
    · rcases hl : t.to_legend_type with _ | tt
      · simp only [deltasSafeFull, hr, hl]
        exact ih b0 hsplit.2 hbrest
      · obtain ⟨hline, hstart⟩ := resolveToken_some hr
        subst hline
        subst hstart
        simp only [deltasSafeFull, hr, hl, Bool.and_eq_true, decide_eq_true_eq]
        refine ⟨⟨byteToLine_mono rope hb0t, ?_⟩, ?_⟩
        · split_ifs with heq
          · simp only [decide_eq_true_eq]
            rw [heq]
            exact Nat.sub_le_sub_right (byteToChar_mono rope hb0t) _
          · rfl
        · exact ih t.range.start hsplit.2 hsplit.1


/-- The full encoder never underflows when started at the origin cursor on a
cache that is ordered by start offset. -/
theorem deltasSafeFull_of_pairwise (rope : List Char) {ts : List Token}
    (hp : List.Pairwise (fun a c => a.range.start ≤ c.range.start) ts) :
    deltasSafeFull rope 0 0 ts = true := by
  have h := deltasSafeFull_aux rope ts 0 hp (fun t _ => Nat.zero_le _)
  simpa [byteToLine_zero, byteToChar_zero, lineToChar_zero] using h

/-- The range encoder's `delta_start` stream is exactly the claim's
column-based rule applied to the emitted positions, for ANY starting cursor
line: the branch never consults line numbers. -/
theorem encodeRange_deltaStart (rope : List Char) :
    ∀ (ts : List Token) (pre_line pre_start : Nat),
      (encodeRangeTokens rope pre_line pre_start ts).map (fun st => st.delta_start)
        = rangeDeltaSpec pre_start (emittedPositions rope ts) := by
  intro ts
  induction ts with
  | nil => intro pl ps; rfl
  | cons t ts ih =>
    intro pl ps
    rcases hr : resolveToken rope t with _ | ⟨line, start⟩
    · simp only [encodeRangeTokens, emittedPositions, hr]
      exact ih pl ps
    · rcases hl : t.to_legend_type with _ | tt
      · simp only [encodeRangeTokens, emittedPositions, hr, hl]
        exact ih pl ps
      · simp only [encodeRangeTokens, emittedPositions, hr, hl, List.map_cons, rangeDeltaSpec]
        exact congrArg _ (ih line start)

/-- Unfolding of the full-token handler when both entries are present. -/
theorem semantic_tokens_full_eq (b : Backend) (uri : String) (toks : List Token)
    (rope : List Char)
    (h1 : mapGet b.token_map uri = some toks)
    (h2 : mapGet b.document_map uri = some rope) :
    semantic_tokens_full b uri
      = ({ b with token_map := mapInsert b.token_map uri (toks.mergeSort tokenLE) },
         some (encodeFullTokens rope 0 0 (toks.mergeSort tokenLE))) := by
  simp [semantic_tokens_full, h1, h2]

/-- Unfolding of the spec-modelled sort-first range algorithm when both
entries are present. -/
theorem semantic_tokens_range_spec_eq (b : Backend) (uri : String) (sp : Span)
    (toks : List Token) (rope : List Char)
    (h1 : mapGet b.token_map uri = some toks)
    (h2 : mapGet b.document_map uri = some rope) :
    semantic_tokens_range_spec b uri sp
      = some (encodeRangeTokens rope 0 0 (toks.mergeSort tokenLE)) := by
  simp [semantic_tokens_range_spec, h1, h2]

/-! ## Claim theorems -/

/-- Claim C1, counterexample: a change event whose lexing fails (`lexOk =
false`, empty token buffer) does NOT leave the previously cached TokenSet
untouched — the cache entry for the document drops from `[c1Tok]` to `[]`,
because `on_change` inserts `lexer.tokens` unconditionally. -/
theorem c1_counterexample :
    mapGet c1Backend.token_map uriU = some [c1Tok] ∧
    mapGet (on_change c1Backend uriU c1Text 2 false []).token_map uriU = some [] := by
  exact ⟨rfl, rfl⟩

/-- Claim C1 (amended): on a change (or open) event the Token Cache entry is
unconditionally replaced with the lexer's token buffer; the lex success flag
has no effect on the resulting state, so a tokenizer failure does NOT
preserve the previous TokenSet. -/
theorem c1_theorem (b : Backend) (uri : String) (text : List Char) (version : Int)
    (lexTokens : List Token) :
    mapGet (on_change b uri text version false lexTokens).token_map uri = some lexTokens ∧
    on_change b uri text version false lexTokens
      = on_change b uri text version true lexTokens :=
  ⟨mapGet_insert_self _ _ _, rfl⟩

/-- Claim C2, counterexample: closing a document removes nothing — `main.rs`
has no `did_close` handler — and a subsequent full token request still
returns the stale cached data instead of the "unavailable" result. -/
theorem c2_counterexample :
    did_close c2Backend uriU = c2Backend ∧
    (semantic_tokens_full (did_close c2Backend uriU) uriU).2 ≠ none := by
  exact ⟨rfl, by decide⟩

/-- Claim C2 (amended): a close event leaves both stores unchanged (there is
no close handler), so a subsequent full token request for a document with
both entries present returns the stale cached encoding, not "unavailable". -/
theorem c2_theorem (b : Backend) (uri : String) (toks : List Token) (rope : List Char)
    (h1 : mapGet b.token_map uri = some toks)
    (h2 : mapGet b.document_map uri = some rope) :
    did_close b uri = b ∧
    (semantic_tokens_full (did_close b uri) uri).2
      = some (encodeFullTokens rope 0 0 (toks.mergeSort tokenLE)) := by
  refine ⟨rfl, ?_⟩
  simp [did_close, semantic_tokens_full, h1, h2]

/-- Witness for C2's amended theorem at the concrete closed document. -/
theorem c2_witness :
    did_close c2Backend uriU = c2Backend ∧
    (semantic_tokens_full (did_close c2Backend uriU) uriU).2
      = some (encodeFullTokens c2Rope 0 0 ([c2Tok].mergeSort tokenLE)) :=
  c2_theorem c2Backend uriU [c2Tok] c2Rope (by decide) (by decide)

/-- Claim C3, counterexample: the cached token occupies bytes `[0, 2)`, and
the caller-supplied span `[100, 200)` excludes it, yet the range request does
not return the empty sequence — it returns the same non-empty output as any
other span, because the handler never reads the span. -/
theorem c3_counterexample :
    semantic_tokens_range c3Backend uriU ⟨100, 200⟩ ≠ some [] ∧
    semantic_tokens_range c3Backend uriU ⟨100, 200⟩
      = semantic_tokens_range c3Backend uriU ⟨0, 2⟩ := by
  exact ⟨by decide, rfl⟩

/-- Claim C3 (amended): the range-restricted handler ignores the
caller-supplied span entirely and encodes every cached token; its output is
the same for any two spans (in particular, a span excluding all tokens does
not yield an empty sequence, though the result is still present, not
"unavailable"). -/
theorem c3_theorem (b : Backend) (uri : String) (sp1 sp2 : Span) :
    semantic_tokens_range b uri sp1 = semantic_tokens_range b uri sp2 := rfl

/-- Claim C4: for every document with both entries, the range encoder's
emitted `deltaStart` stream equals the column-only rule `rangeDeltaSpec`
(`col - prevCol` when `col ≥ prevCol`, else the absolute `col`), which never
consults line numbers; and this differs observably from the full encoder's
line-based branch on the same (already sorted) cache. -/
theorem c4_theorem (b : Backend) (uri : String) (sp : Span) (toks : List Token)
    (rope : List Char)
    (h1 : mapGet b.token_map uri = some toks)
    (h2 : mapGet b.document_map uri = some rope) :
    (∃ out, semantic_tokens_range b uri sp = some out ∧
      out.map (fun st => st.delta_start) = rangeDeltaSpec 0 (emittedPositions rope toks)) ∧
    semantic_tokens_range c4Backend uriU ⟨0, 5⟩ ≠ (semantic_tokens_full c4Backend uriU).2 := by
  constructor
  · refine ⟨encodeRangeTokens rope 0 0 toks, ?_, ?_⟩
    · simp [semantic_tokens_range, h1, h2]
    · exact encodeRange_deltaStart rope toks 0 0
  · have hms : c4Toks.mergeSort tokenLE = c4Toks := mergeSort_eq_of_pairwise (by decide)
    rw [semantic_tokens_full_eq c4Backend uriU c4Toks c4Rope (by decide) (by decide), hms]
    decide

/-- Witness for C4 at the two-line concrete document. -/
theorem c4_witness :
    (∃ out, semantic_tokens_range c4Backend uriU ⟨0, 5⟩ = some out ∧
      out.map (fun st => st.delta_start) = rangeDeltaSpec 0 (emittedPositions c4Rope c4Toks)) ∧
    semantic_tokens_range c4Backend uriU ⟨0, 5⟩ ≠ (semantic_tokens_full c4Backend uriU).2 :=
  c4_theorem c4Backend uriU ⟨0, 5⟩ c4Toks c4Rope (by decide) (by decide)

/-- Claim C5: the full-document request returns the absent result exactly
when the Text Store or the Token Cache lacks an entry for the document;
otherwise the result is present (possibly an empty list). -/
theorem c5_theorem (b : Backend) (uri : String) :
    (semantic_tokens_full b uri).2 = none ↔
      mapGet b.token_map uri = none ∨ mapGet b.document_map uri = none := by
  rcases h1 : mapGet b.token_map uri with _ | toks
  · simp [semantic_tokens_full, h1]
  · rcases h2 : mapGet b.document_map uri with _ | rope
    · simp [semantic_tokens_full, h1, h2]
    · simp [semantic_tokens_full, h1, h2]

/-- Claim C6: for a document whose cached TokenSet is sorted ascending by
start offset, non-overlapping, and within the buffer, full encoding emits at
most N entries, and `deltasSafeFull` certifies that at every emitted entry
the previous line is ≤ the current line and, on an equal line, the previous
column is ≤ the current column — so `deltaLine ≥ 0` and `deltaStart ≥ 0`
whenever `deltaLine = 0`, with no unsigned underflow in the `u32`
subtractions. -/
theorem c6_theorem (b : Backend) (uri : String) (toks : List Token) (rope : List Char)
    (h1 : mapGet b.token_map uri = some toks)
    (h2 : mapGet b.document_map uri = some rope)
    (hsorted : List.Pairwise (fun a c => a.range.start ≤ c.range.start) toks)
    (hsep : List.Pairwise (fun a c => a.range.stop ≤ c.range.start) toks)
    (hbounds : ∀ t ∈ toks, t.range.start ≤ t.range.stop ∧ t.range.stop ≤ byteLen rope) :
    ∃ out, (semantic_tokens_full b uri).2 = some out ∧
      out.length ≤ toks.length ∧ deltasSafeFull rope 0 0 toks = true := by
  refine ⟨encodeFullTokens rope 0 0 (toks.mergeSort tokenLE), ?_, ?_, ?_⟩
  · simp [semantic_tokens_full, h1, h2]
  · rw [mergeSort_eq_of_pairwise hsorted]
    exact encodeFullTokens_length_le rope toks 0 0
  · exact deltasSafeFull_of_pairwise rope hsorted

/-- Witness for C6 at the spec §8 scenario document. -/
theorem c6_witness :
    ∃ out, (semantic_tokens_full c6Backend uriU).2 = some out ∧
      out.length ≤ c6Toks.length ∧ deltasSafeFull c6Rope 0 0 c6Toks = true :=
  c6_theorem c6Backend uriU c6Toks c6Rope (by decide) (by decide) (by decide) (by decide)
    (by decide)

/-- Claim C7, counterexample: on a cache stored out of order the range
handler's output differs from the sort-first algorithm the spec prescribes
(`semantic_tokens_range_spec`): the range handler performs no sorting step. -/
theorem c7_counterexample :
    semantic_tokens_range c7Backend uriU ⟨0, 2⟩
      ≠ semantic_tokens_range_spec c7Backend uriU ⟨0, 2⟩ := by
  have hms : c7Toks.mergeSort tokenLE = c7SortedToks := by
    simp [c7Toks, c7SortedToks, List.mergeSort, tokenLE]
  rw [semantic_tokens_range_spec_eq c7Backend uriU ⟨0, 2⟩ c7Toks c7Rope (by decide) (by decide),
    hms]
  decide

/-- Claim C7 (amended): the range handler skips the sorting step and encodes
the cached TokenSet in stored order; it agrees with the sort-first algorithm
precisely on caches that are already sorted ascending by start offset. -/
theorem c7_theorem (b : Backend) (uri : String) (sp : Span) (toks : List Token)
    (rope : List Char)
    (h1 : mapGet b.token_map uri = some toks)
    (h2 : mapGet b.document_map uri = some rope)
    (hsorted : List.Pairwise (fun a c => a.range.start ≤ c.range.start) toks) :
    semantic_tokens_range b uri sp = semantic_tokens_range_spec b uri sp := by
  simp [semantic_tokens_range, semantic_tokens_range_spec, h1, h2,
    mergeSort_eq_of_pairwise hsorted]

/-- Witness for C7's amended theorem on an already-sorted cache. -/
theorem c7_witness :
    semantic_tokens_range c7SortedBackend uriU ⟨0, 2⟩
      = semantic_tokens_range_spec c7SortedBackend uriU ⟨0, 2⟩ :=
  c7_theorem c7SortedBackend uriU ⟨0, 2⟩ c7SortedToks c7Rope (by decide) (by decide)
    (by decide)

/-- Claim C8: requesting full tokens twice with no intervening event returns
identical output — the first request leaves the cache sorted, and sorting is
idempotent, so the second encoding coincides. -/
theorem c8_theorem (b : Backend) (uri : String) :
    (semantic_tokens_full (semantic_tokens_full b uri).1 uri).2
      = (semantic_tokens_full b uri).2 := by
  rcases h1 : mapGet b.token_map uri with _ | toks
  · simp [semantic_tokens_full, h1]
  · rcases h2 : mapGet b.document_map uri with _ | rope
    · simp [semantic_tokens_full, h1, h2]
    · have e1 : semantic_tokens_full b uri
          = ({ b with token_map := mapInsert b.token_map uri (toks.mergeSort tokenLE) },
             some (encodeFullTokens rope 0 0 (toks.mergeSort tokenLE))) := by
        simp [semantic_tokens_full, h1, h2]
      rw [e1]
      have h1' : mapGet (mapInsert b.token_map uri (toks.mergeSort tokenLE)) uri
          = some (toks.mergeSort tokenLE) := mapGet_insert_self _ _ _
      simp [semantic_tokens_full, h1', h2, mergeSort_eq_of_pairwise (mergeSort_pairwise toks)]

/-- Claim C9: the change handler reads `content_changes[0]` by direct
indexing: an empty content-changes list makes the handler panic (modelled as
`none`) instead of handling the notification, while a non-empty list is
handled via `on_change` on its first element. -/
theorem c9_theorem (b : Backend) (uri : String) (version : Int) (lexOk : Bool)
    (lexTokens : List Token) :
    did_change b uri [] version lexOk lexTokens = none ∧
    ∀ (c : List Char) (cs : List (List Char)),
      did_change b uri (c :: cs) version lexOk lexTokens
        = some (on_change b uri c version lexOk lexTokens) :=
  ⟨rfl, fun _ _ => rfl⟩

/-- Claim C10: the full-document query is not read-only: afterwards the Token
Cache entry is the sorted (stable, ascending-by-start) permutation of what it
held, a subsequent range query reads that reordered entry, and on a concrete
out-of-order cache the range query's output observably changes after a full
query. -/
theorem c10_theorem (b : Backend) (uri : String) (sp : Span) (toks : List Token)
    (rope : List Char)
    (h1 : mapGet b.token_map uri = some toks)
    (h2 : mapGet b.document_map uri = some rope) :
    mapGet (semantic_tokens_full b uri).1.token_map uri = some (toks.mergeSort tokenLE) ∧
    List.Pairwise (fun a c => a.range.start ≤ c.range.start) (toks.mergeSort tokenLE) ∧
    (toks.mergeSort tokenLE).Perm toks ∧
    semantic_tokens_range (semantic_tokens_full b uri).1 uri sp
      = some (encodeRangeTokens rope 0 0 (toks.mergeSort tokenLE)) ∧
    semantic_tokens_range c10Backend uriU ⟨0, 2⟩
      ≠ semantic_tokens_range (semantic_tokens_full c10Backend uriU).1 uriU ⟨0, 2⟩ := by
  have e1 : semantic_tokens_full b uri
      = ({ b with token_map := mapInsert b.token_map uri (toks.mergeSort tokenLE) },
         some (encodeFullTokens rope 0 0 (toks.mergeSort tokenLE))) := by
    simp [semantic_tokens_full, h1, h2]
  refine ⟨?_, mergeSort_pairwise toks, List.mergeSort_perm toks tokenLE, ?_, ?_⟩
  · rw [e1]
    exact mapGet_insert_self _ _ _
  · rw [e1]
    simp [semantic_tokens_range, mapGet_insert_self, h2]
  · have hms : c10Toks.mergeSort tokenLE = [⟨⟨0, 1⟩, .number⟩, ⟨⟨1, 2⟩, .number⟩] := by
      simp [c10Toks, List.mergeSort, tokenLE]
    rw [semantic_tokens_full_eq c10Backend uriU c10Toks c10Rope (by decide) (by decide), hms]
    decide

/-- Witness for C10 at the concrete out-of-order cache. -/
theorem c10_witness :
    mapGet (semantic_tokens_full c10Backend uriU).1.token_map uriU
      = some (c10Toks.mergeSort tokenLE) ∧
    List.Pairwise (fun a c => a.range.start ≤ c.range.start) (c10Toks.mergeSort tokenLE) ∧
    (c10Toks.mergeSort tokenLE).Perm c10Toks ∧
    semantic_tokens_range (semantic_tokens_full c10Backend uriU).1 uriU ⟨0, 2⟩
      = some (encodeRangeTokens c10Rope 0 0 (c10Toks.mergeSort tokenLE)) ∧
    semantic_tokens_range c10Backend uriU ⟨0, 2⟩
      ≠ semantic_tokens_range (semantic_tokens_full c10Backend uriU).1 uriU ⟨0, 2⟩ :=
  c10_theorem c10Backend uriU ⟨0, 2⟩ c10Toks c10Rope (by decide) (by decide)

end GtkLS
